import Mathlib

/-!
Shallow embedding of the Sudoku solver/generator from `src/main.rs`
(`GridCellOptions`, `GridCell`, `Grid`, `Random` as `NRRandom`),
together with proofs
checking the natural-language specification against it.

Conventions of the embedding:
* Rust `[bool; 9]` candidate arrays become a structure wrapping a
  `List Bool` (always of length 9 in well-formed grids; the `WF`
  predicate records this where a proof needs it).
* Rust `[GridCell; 81]` becomes a structure wrapping a `List GridCell`
  (length 81 in well-formed grids).
* In-place mutation becomes explicit state passing; functions that
  mutate and return a value return a pair.
* The `while` loop of `Grid::deduce` and the recursion of
  `Grid::find_solutions` are given explicit fuel; the fuel chosen in
  `Grid.deduce` / `Grid.solve` is proved (resp. argued from the strict
  decrease of the corresponding measure) to be sufficient.
* Rust panics (array index out of range in `Grid::new`) are modelled by
  `Option`; `u64` arithmetic in `Random` is `Nat` arithmetic with an
  explicit `% 2 ^ 64` where overflow can occur.
-/

/-- Embeds `struct GridCellOptions([bool; 9])`. -/
structure GridCellOptions where
  bits : List Bool
deriving DecidableEq

namespace GridCellOptions

/-- `GridCellOptions::all`. -/
def all : GridCellOptions := ⟨List.replicate 9 true⟩

/-- `GridCellOptions::none`. -/
def noneSet : GridCellOptions := ⟨List.replicate 9 false⟩

/-- `GridCellOptions::single`. -/
def single (value : Nat) : GridCellOptions := ⟨(List.replicate 9 false).set value true⟩

/-- `GridCellOptions::is_set`. -/
def isSet (o : GridCellOptions) (value : Option Nat) : Bool :=
  match value with
  | some v => o.bits.getD v false
  | none => false

/-- `GridCellOptions::set`. -/
def setOpt (o : GridCellOptions) (value : Option Nat) : GridCellOptions :=
  match value with
  | some v => ⟨o.bits.set v true⟩
  | none => o

/-- Positions of the set bits of a list of flags, in ascending order,
starting the position count at `i`.  Helper for `toList`. -/
def truePositions : List Bool → Nat → List Nat
  | [], _ => []
  | b :: rest, i => if b then i :: truePositions rest (i + 1) else truePositions rest (i + 1)

/-- The `Iterator` implementation on `GridCellOptions`: repeatedly take
the lowest set bit and clear it, so iterating a copy yields the
positions of the set bits in ascending order. -/
def toList (o : GridCellOptions) : List Nat := truePositions o.bits 0

end GridCellOptions

/-- Embeds `struct GridCell { given: bool, options: GridCellOptions }`. -/
structure GridCell where
  given : Bool
  options : GridCellOptions
deriving DecidableEq

namespace GridCell

/-- `GridCell::new`. -/
def new (value : Option Nat) : GridCell :=
  match value with
  | some v => { given := true, options := GridCellOptions.single v }
  | none => { given := false, options := GridCellOptions.all }

/-- `GridCell::count`: the number of set candidate bits. -/
def count (c : GridCell) : Nat := (c.options.bits.filter (fun x => x)).length

/-- `GridCell::unique`. -/
def unique (c : GridCell) : Bool := c.count == 1

/-- `GridCell::value`. -/
def value (c : GridCell) : Option Nat :=
  if c.unique then c.options.bits.findIdx? (fun x => x) else none

/-- `GridCell::is_legal`. -/
def isLegal (c : GridCell) (value : Nat) : Bool := c.options.bits.getD value false

/-- `GridCell::set`. -/
def setCell (c : GridCell) (value : Nat) : GridCell :=
  { c with options := GridCellOptions.single value }

/-- The loop body of `GridCell::remove`: walk the candidate bits zipped
with the mask bits, clear every bit whose mask bit is set, and count the
bits that were actually set before being cleared.  Bits of the first
list beyond the length of the mask are kept, as the Rust `zip` of
iterators leaves them untouched. -/
def removeBits : List Bool → List Bool → Nat × List Bool
  | o, [] => (0, o)
  | [], _ => (0, [])
  | o :: os, r :: rs =>
    let p := removeBits os rs
    if r then (p.1 + (if o then 1 else 0), false :: p.2) else (p.1, o :: p.2)

/-- `GridCell::remove`: no-op returning 0 on unique cells, otherwise
clear the masked bits and return how many were cleared. -/
def remove (c : GridCell) (options : GridCellOptions) : Nat × GridCell :=
  if c.unique then (0, c)
  else
    let p := removeBits c.options.bits options.bits
    (p.1, { c with options := ⟨p.2⟩ })

end GridCell

/-- Embeds `enum GridDeduction`. -/
inductive GridDeduction where
  | NoChange
  | Consistent
  | Conflict
deriving DecidableEq

namespace GridDeduction

/-- `GridDeduction::is_consistent`. -/
def isConsistent : GridDeduction → Bool
  | Consistent => true
  | _ => false

/-- `GridDeduction::no_conflict`. -/
def noConflict : GridDeduction → Bool
  | Conflict => false
  | _ => true

/-- The `BitAndAssign` implementation: precedence Conflict > Consistent
> NoChange. -/
def combine : GridDeduction → GridDeduction → GridDeduction
  | Conflict, _ => Conflict
  | _, Conflict => Conflict
  | Consistent, _ => Consistent
  | _, Consistent => Consistent
  | _, _ => NoChange

end GridDeduction

/-- Embeds `struct Grid([GridCell; 81])`. -/
structure Grid where
  cells : List GridCell
deriving DecidableEq

/-- A blank cell, the value every cell of a fresh grid starts with. -/
def blankCell : GridCell := GridCell.new none

namespace Grid

/-- Array indexing `self.0[index]` (reads out of range, which cannot
happen on well-formed grids, yield a blank cell). -/
def cellAt (g : Grid) (index : Nat) : GridCell := g.cells.getD index blankCell

/-- Well-formedness: the fixed array sizes of the Rust types, which the
list-based embedding must carry as an invariant: 81 cells, each with 9
candidate bits. -/
def WF (g : Grid) : Prop :=
  g.cells.length = 81 ∧ ∀ c ∈ g.cells, c.options.bits.length = 9

instance : DecidablePred WF := fun g => by
  unfold WF; infer_instance

/-- The first half of `Grid::remove_options`: scan the cells of one
partition accumulating the already uniquely assigned digits into a
mask; `none` signals the early `return GridDeduction::Conflict` taken
when a digit is claimed as unique twice. -/
def computeSetOptions (g : Grid) : List Nat → GridCellOptions → Option GridCellOptions
  | [], acc => some acc
  | index :: rest, acc =>
    let v := (g.cellAt index).value
    if acc.isSet v then none
    else computeSetOptions g rest (acc.setOpt v)

/-- The second half of `Grid::remove_options`: call `remove` with the
mask on every cell of the partition in turn, accumulating the total
number of removed candidates. -/
def removeFold (setOptions : GridCellOptions) : List Nat → Nat × Grid → Nat × Grid
  | [], acc => acc
  | index :: rest, acc =>
    let p := (acc.2.cellAt index).remove setOptions
    removeFold setOptions rest (acc.1 + p.1, ⟨acc.2.cells.set index p.2⟩)

/-- `Grid::remove_options`: detect a duplicated unique digit in the
partition (Conflict), otherwise remove the mask of unique digits from
every cell of the partition and classify by the number of removals. -/
def removeOptions (g : Grid) (indices : List Nat) : GridDeduction × Grid :=
  match computeSetOptions g indices GridCellOptions.noneSet with
  | none => (GridDeduction.Conflict, g)
  | some setOptions =>
    let acc := removeFold setOptions indices (0, g)
    (if acc.1 = 0 then GridDeduction.NoChange else GridDeduction.Consistent, acc.2)

/-- The cell indices of box `box_number`, as in `Grid::deduce_box`. -/
def boxIndices (boxNumber : Nat) : List Nat :=
  [0, 1, 2, 9, 10, 11, 18, 19, 20].map (· + (boxNumber / 3) * 27 + (boxNumber % 3) * 3)

/-- The cell indices of row `row_number`, as in `Grid::deduce_row`. -/
def rowIndices (rowNumber : Nat) : List Nat :=
  [0, 1, 2, 3, 4, 5, 6, 7, 8].map (· + 9 * rowNumber)

/-- The cell indices of column `column_number`, as in
`Grid::deduce_column`. -/
def colIndices (columnNumber : Nat) : List Nat :=
  [0, 9, 18, 27, 36, 45, 54, 63, 72].map (· + columnNumber)

/-- The partitions in the exact order the body of the `while` loop of
`Grid::deduce` visits them: for each `number` in `0..9`, box, then row,
then column. -/
def allParts : List (List Nat) :=
  ((List.range 9).map (fun n => [boxIndices n, rowIndices n, colIndices n])).flatten

/-- One pass of `remove_options` over a list of partitions, combining
the outcomes with the `&=` of `GridDeduction`. -/
def sweepParts (acc : GridDeduction × Grid) : List (List Nat) → GridDeduction × Grid
  | [] => acc
  | p :: rest =>
    let s := removeOptions acc.2 p
    sweepParts (GridDeduction.combine acc.1 s.1, s.2) rest

/-- One full iteration of the `while` loop body of `Grid::deduce`:
`result = NoChange`, then fold every box, row and column through
`remove_options`. -/
def sweep (g : Grid) : GridDeduction × Grid :=
  sweepParts (GridDeduction.NoChange, g) allParts

/-- Total number of set candidate bits on the board: the termination
measure of the `while` loop of `Grid::deduce`. -/
def totalBits (g : Grid) : Nat := (g.cells.map GridCell.count).sum

/-- The `while result.is_consistent()` loop of `Grid::deduce`, with
explicit fuel.  Each `Consistent` sweep strictly decreases `totalBits`,
so `totalBits g + 1` fuel never runs out (proved below). -/
def deduceAux : Nat → Grid → GridDeduction × Grid
  | 0, g => (GridDeduction.NoChange, g)
  | fuel + 1, g =>
    let s := sweep g
    match s.1 with
    | GridDeduction.Consistent => deduceAux fuel s.2
    | GridDeduction.NoChange => s
    | GridDeduction.Conflict => s

/-- `Grid::deduce`. -/
def deduce (g : Grid) : GridDeduction × Grid := deduceAux (totalBits g + 1) g

/-- `Grid::first_unsolved_cell`, with the running index made explicit. -/
def firstUnsolvedAux : List GridCell → Nat → Option (Nat × GridCellOptions)
  | [], _ => none
  | c :: rest, index =>
    if c.unique then firstUnsolvedAux rest (index + 1) else some (index, c.options)

/-- `Grid::first_unsolved_cell`. -/
def firstUnsolvedCell (g : Grid) : Option (Nat × GridCellOptions) :=
  firstUnsolvedAux g.cells 0

/-- Number of non-unique cells: the recursion measure of
`Grid::find_solutions` (each recursive call solves at least the trial
cell and never un-solves a cell). -/
def nonUnique (g : Grid) : Nat := (g.cells.filter (fun c => !c.unique)).length

/-- `Grid::find_solutions`, with explicit fuel for the recursion.  Each
guess restores the board to the pre-trial snapshot (`backtrack`), sets
the trial cell, runs `deduce`, and recurses when there is no conflict;
a board with no unsolved cell is appended to the accumulated solutions;
the cutoff check at entry makes the whole search stop once enough
solutions are collected. -/
def findSolutions : Nat → Grid → List Grid → Nat → List Grid
  | 0, _, solutions, _ => solutions
  | fuel + 1, g, solutions, cutoff =>
    if cutoff ≤ solutions.length then solutions
    else
      match g.firstUnsolvedCell with
      | some (trialIndex, options) =>
        options.toList.foldl
          (fun sols guess =>
            let g' : Grid := ⟨g.cells.set trialIndex ((g.cellAt trialIndex).setCell guess)⟩
            let s := g'.deduce
            if s.1.noConflict then findSolutions fuel s.2 sols cutoff else sols)
          solutions
      | none => solutions ++ [g]

/-- `Grid::solve`. -/
def solve (g : Grid) (solutionsCutoff : Nat) : List Grid :=
  findSolutions (g.nonUnique + 1) g [] solutionsCutoff

/-- `g.cells.all unique`: every cell of the board is solved. -/
def allUnique (g : Grid) : Bool := g.cells.all (fun c => c.unique)

/-- Row/column/box completeness of a board: every partition's cells
carry each digit `0..8` (rendering digits 1–9) exactly once as their
unique value. -/
def valid (g : Grid) : Bool :=
  allParts.all (fun p =>
    (List.range 9).all (fun d =>
      (p.map (fun i => (g.cellAt i).value)).count (some d) == 1))

end Grid

/-- The step function of the character loop of `Grid::new`: a digit
`'1'..='9'` writes a given cell at the running index (`none` models the
Rust panic when the index is out of bounds), `'x'` advances the index
over a blank cell, anything else is skipped. -/
def gridNewAux : List Char → Nat → List GridCell → Option (List GridCell)
  | [], _, cells => some cells
  | c :: rest, gridIndex, cells =>
    if c = 'x' then gridNewAux rest (gridIndex + 1) cells
    else if '1' ≤ c ∧ c ≤ '9' then
      if gridIndex < 81 then
        gridNewAux rest (gridIndex + 1)
          (cells.set gridIndex (GridCell.new (some (c.toNat - '0'.toNat - 1))))
      else none
    else gridNewAux rest gridIndex cells

/-- `Grid::new`, restricted to its core: the already-read text is
consumed character by character over an array of 81 blank cells (the
file-system access and its `expect` are I/O and out of scope). -/
def gridNew (text : List Char) : Option Grid :=
  (gridNewAux text 0 (List.replicate 81 blankCell)).map Grid.mk

/-- Number of value-producing characters of the puzzle text: the
digits `'1'..='9'` and the placeholder `'x'` are the characters that
advance the cell index in `Grid::new`. -/
def producingCount (text : List Char) : Nat :=
  (text.filter (fun c => c = 'x' ∨ ('1' ≤ c ∧ c ≤ '9'))).length

/-- Build a grid from a list of `(index, digit)` givens over a blank
board; test-input helper. -/
def mkGiven (l : List (Nat × Nat)) : Grid :=
  ⟨l.foldl (fun cells p => cells.set p.1 (GridCell.new (some p.2))) (List.replicate 81 blankCell)⟩

/-- The empty board: 81 blank cells. -/
def blankGrid : Grid := ⟨List.replicate 81 blankCell⟩

/-! ### The pseudo-random source and the generator

Embedding of `struct Random(u64, u64, u64)` (the "Belts-and-Suspenders"
PRNG) and of `Grid::generate`.  The tuple fields `.0`, `.1`, `.2`
become `s0`, `s1`, `s2`; every `u64` is a `Nat` reduced by `% 2 ^ 64`
(or masked) exactly where the Rust wrapping operations may overflow. -/

/-- The `u64` modulus. -/
def u64Mod : Nat := 2 ^ 64

/-- Embeds `struct Random(u64, u64, u64)`. -/
structure NRRandom where
  s0 : Nat
  s1 : Nat
  s2 : Nat

namespace NRRandom

/-- `Random::get`: one draw, returning the value and the advanced
state. -/
def get (r : NRRandom) : Nat × NRRandom :=
  let s0 := (r.s0 * 2862933555777941757 + 7046029254386353087) % u64Mod
  let a := r.s1 ^^^ (r.s1 >>> 17)
  let b := a ^^^ ((a <<< 31) % u64Mod)
  let s1 := b ^^^ (b >>> 8)
  let s2 := (4294957665 * (r.s2 &&& 0xffffffff) + (r.s2 >>> 32)) % u64Mod
  let x0 := s0 ^^^ ((s0 <<< 21) % u64Mod)
  let x1 := x0 ^^^ (x0 >>> 35)
  let x2 := x1 ^^^ ((x1 <<< 4) % u64Mod)
  (((x2 + s1) % u64Mod) ^^^ s2, ⟨s0, s1, s2⟩)

/-- `Random::new`: seed, then three warm-up draws cross-seeding the
state words. -/
def new (seed : Nat) : NRRandom :=
  let v : Nat := 4101842887655102017
  let g0 : NRRandom := ⟨seed ^^^ v, v, 1⟩
  let g1 := (g0.get).2
  let g1x : NRRandom := { g1 with s1 := g1.s0 }
  let g2 := (g1x.get).2
  let g2x : NRRandom := { g2 with s2 := g2.s1 }
  (g2x.get).2

/-- `Random::range`. -/
def range (r : NRRandom) (lo hi : Nat) : Nat × NRRandom :=
  let p := r.get
  (lo + p.1 % (hi - lo), p.2)

/-- `list.swap(i, j)` on a list of naturals. -/
def listSwap (l : List Nat) (i j : Nat) : List Nat :=
  let a := l.getD i 0
  let b := l.getD j 0
  (l.set i b).set j a

/-- `Random::shuffle`: the partial Fisher–Yates loop
`for i in 0..list.len() - 2` (the callers always pass lists of 9 or 81
elements, so the subtraction never underflows). -/
def shuffle (r : NRRandom) (l : List Nat) : List Nat × NRRandom :=
  (List.range (l.length - 2)).foldl
    (fun acc i =>
      let p := range acc.2 i l.length
      (listSwap acc.1 i p.1, p.2))
    (l, r)

end NRRandom

/-- The three diagonal boxes filled by the first phase of
`Grid::generate`. -/
def diagBoxIndices : List (List Nat) :=
  [[0, 1, 2, 9, 10, 11, 18, 19, 20],
   [30, 31, 32, 39, 40, 41, 48, 49, 50],
   [60, 61, 62, 69, 70, 71, 78, 79, 80]]

/-- Write a list of `(index, digit)` pairs into a grid with
`GridCell::set`. -/
def setCells (g : Grid) (pairs : List (Nat × Nat)) : Grid :=
  pairs.foldl (fun g p => ⟨g.cells.set p.1 ((g.cellAt p.1).setCell p.2)⟩) g

/-- The labelled `'all` clue-insertion loop of `Grid::generate`:
skip unique cells; otherwise shuffle the digits, pick the first legal
one (`none` models the `expect("no legal values in cell")` panic),
tentatively set it and run `solve(2)`: revert-and-deduce on zero
solutions, stop with the solution on exactly one, keep-and-deduce
otherwise. -/
def phase2 : List Nat → List Nat → NRRandom → Grid → Option (List Nat × NRRandom × Grid)
  | [], digits, r, g => some (digits, r, g)
  | cell :: rest, digits, r, g =>
    if (g.cellAt cell).unique then phase2 rest digits r g
    else
      let s := r.shuffle digits
      match s.1.find? (fun d => (g.cellAt cell).isLegal d) with
      | none => none
      | some digit =>
        let gset : Grid := ⟨g.cells.set cell ((g.cellAt cell).setCell digit)⟩
        let solutions := gset.solve 2
        if solutions.length = 0 then phase2 rest s.1 s.2 (g.deduce).2
        else if solutions.length = 1 then some (s.1, s.2, solutions.getD 0 blankGrid)
        else phase2 rest s.1 s.2 ((gset.deduce).2)

/-- The minimisation loop of `Grid::generate`: blank each visited cell
and keep the blank only when the board still has exactly one
solution. -/
def phase3 (cells : List Nat) (g : Grid) : Grid :=
  cells.foldl
    (fun g cell =>
      let gblank : Grid :=
        ⟨g.cells.set cell { g.cellAt cell with options := GridCellOptions.all }⟩
      if (gblank.solve 2).length ≠ 1 then g else gblank)
    g

/-- `Grid::generate`: fill the diagonal boxes with shuffled digit
permutations, deduce, insert clues (`phase2`), minimise (`phase3`), and
mark every remaining unique cell as given. -/
def generate (seed : Nat) : Option Grid :=
  let st := diagBoxIndices.foldl
    (fun (acc : List Nat × NRRandom × Grid) indices =>
      let s := acc.2.1.shuffle acc.1
      (s.1, s.2, setCells acc.2.2 (indices.zip s.1)))
    ([0, 1, 2, 3, 4, 5, 6, 7, 8], NRRandom.new seed, blankGrid)
  let g1 := (st.2.2.deduce).2
  let s1 := st.2.1.shuffle (List.range 81)
  match phase2 s1.1 st.1 s1.2 g1 with
  | none => none
  | some res =>
    let s2 := (res.2.1).shuffle s1.1
    let g2 := phase3 s2.1 res.2.2
    some ⟨g2.cells.map (fun c => if c.unique then { c with given := true } else c)⟩

/-- A board with a single given 5 in the top-left corner. -/
def singleGiven : Grid := mkGiven [(0, 4)]

/-- A board whose bottom row holds two given 5s (cells 72 and 73). -/
def twoFivesRow : Grid := mkGiven [(72, 4), (73, 4)]

/-- A board with a persistent conflict (two 5s in row 8, cells 72/73)
*and* a column-5 pattern that needs a second sweep to propagate into
row 0: the conflict makes `deduce` stop after one sweep, short of the
fixed point. -/
def conflictMid : Grid := mkGiven
  [(72, 4), (73, 4), (14, 0), (23, 1), (32, 2), (41, 3), (50, 4), (59, 5), (68, 6), (77, 7)]

/-- The digits of a fully solved valid board (row-major), used as a
concrete test board. -/
def solvedDigits : List Nat :=
  [5, 3, 4, 6, 7, 8, 9, 1, 2,
   6, 7, 2, 1, 9, 5, 3, 4, 8,
   1, 9, 8, 3, 4, 2, 5, 6, 7,
   8, 5, 9, 7, 6, 1, 4, 2, 3,
   4, 2, 6, 8, 5, 3, 7, 9, 1,
   7, 1, 3, 9, 2, 4, 8, 5, 6,
   9, 6, 1, 5, 3, 7, 2, 8, 4,
   2, 8, 7, 4, 1, 9, 6, 3, 5,
   3, 4, 5, 2, 8, 6, 1, 7, 9]

/-- The fully solved board with all 81 cells given. -/
def solvedGrid : Grid := ⟨solvedDigits.map (fun d => GridCell.new (some (d - 1)))⟩

/-- The solved board with its last cell opened up to the two candidate
digits 8 and 9 (a non-unique, non-given cell). -/
def almostSolvedGrid : Grid :=
  ⟨(solvedDigits.map (fun d => GridCell.new (some (d - 1)))).set 80
    { given := false,
      options := ⟨[false, false, false, false, false, false, false, true, true]⟩ }⟩

/-- The board the solver reconstructs from `almostSolvedGrid`: cell 80
holds the digit 9 again, but as a solver-filled (non-given) cell. -/
def almostSolvedSolution : Grid :=
  ⟨(solvedDigits.map (fun d => GridCell.new (some (d - 1)))).set 80
    { given := false, options := GridCellOptions.single 8 }⟩

/-- A fully filled but invalid board: every cell is the given digit 1. -/
def allOnesGrid : Grid := ⟨List.replicate 81 (GridCell.new (some 0))⟩

/-! ### List helper lemmas -/

lemma getD_set_self {α : Type} (l : List α) (i : Nat) (a d : α) (h : i < l.length) :
    (l.set i a).getD i d = a := by
  simp [List.getD_eq_getElem?_getD, List.getElem?_set_self h]

lemma getD_set_ne {α : Type} (l : List α) (i j : Nat) (a d : α) (h : i ≠ j) :
    (l.set i a).getD j d = l.getD j d := by
  simp [List.getD_eq_getElem?_getD, List.getElem?_set_ne h]

lemma set_getD_self {α : Type} (l : List α) (i : Nat) (d : α) :
    l.set i (l.getD i d) = l := by
  by_cases h : i < l.length
  · apply List.ext_getElem?
    intro n
    by_cases hn : i = n
    · subst hn
      rw [List.getElem?_set_self h, List.getD_eq_getElem?_getD, List.getElem?_eq_getElem h]
      rfl
    · rw [List.getElem?_set_ne hn]
  · exact List.set_eq_of_length_le (by omega)

lemma mem_of_mem_set {α : Type} {l : List α} {n : Nat} {a b : α}
    (h : a ∈ l.set n b) : a ∈ l ∨ a = b := List.mem_or_eq_of_mem_set h

lemma findIdx?_lt_length {α : Type} {p : α → Bool} {l : List α} {i : Nat}
    (h : l.findIdx? p = some i) : i < l.length := by
  have := List.findIdx?_eq_some_iff_findIdx_eq.mp h
  omega

lemma getD_mem {α : Type} (l : List α) (i : Nat) (d : α) (h : i < l.length) :
    l.getD i d ∈ l := by
  rw [List.getD_eq_getElem?_getD, List.getElem?_eq_getElem h]
  exact List.getElem_mem h

/-! ### `removeBits` lemmas -/

namespace GridCell

lemma removeBits_length (o : List Bool) : ∀ m : List Bool,
    (removeBits o m).2.length = o.length := by
  induction o with
  | nil => intro m; cases m <;> simp [removeBits]
  | cons b os ih =>
    intro m
    cases m with
    | nil => simp [removeBits]
    | cons r rs =>
      cases r <;> simp [removeBits, ih]

lemma removeBits_count (o : List Bool) : ∀ m : List Bool,
    ((removeBits o m).2.filter (fun x => x)).length + (removeBits o m).1 =
      (o.filter (fun x => x)).length := by
  induction o with
  | nil => intro m; cases m <;> simp [removeBits]
  | cons b os ih =>
    intro m
    cases m with
    | nil => simp [removeBits]
    | cons r rs =>
      have h := ih rs
      cases r <;> cases b <;> simp [removeBits, List.filter] <;> omega

lemma removeBits_zero (o : List Bool) : ∀ m : List Bool,
    (removeBits o m).1 = 0 → (removeBits o m).2 = o := by
  induction o with
  | nil => intro m; cases m <;> simp [removeBits]
  | cons b os ih =>
    intro m
    cases m with
    | nil => simp [removeBits]
    | cons r rs =>
      cases r <;> cases b <;> simp [removeBits] <;> intro h <;> simp [ih rs h]

lemma removeBits_getD (o : List Bool) : ∀ (m : List Bool) (i : Nat),
    (removeBits o m).2.getD i false = (o.getD i false && !(m.getD i false)) := by
  induction o with
  | nil =>
    intro m i
    cases m <;> simp [removeBits]
  | cons b os ih =>
    intro m i
    cases m with
    | nil => simp [removeBits]
    | cons r rs =>
      cases i with
      | zero => cases r <;> cases b <;> simp [removeBits]
      | succ n =>
        have h := ih rs n
        simp [List.getD_eq_getElem?_getD] at h
        cases r <;> simp [removeBits, List.getD_eq_getElem?_getD, h]

/-- On a unique cell, `remove` is the no-op returning 0. -/
lemma remove_of_unique {c : GridCell} (h : c.unique = true) (m : GridCellOptions) :
    c.remove m = (0, c) := by
  simp [remove, h]

/-- `remove` decreases the candidate count by exactly the returned
number of removed bits. -/
lemma remove_count (c : GridCell) (m : GridCellOptions) :
    (c.remove m).2.count + (c.remove m).1 = c.count := by
  by_cases h : c.unique
  · simp [remove, h]
  · simp [remove, h, count, removeBits_count]

/-- A `remove` that removed nothing leaves the cell unchanged. -/
lemma remove_zero {c : GridCell} {m : GridCellOptions}
    (h : (c.remove m).1 = 0) : (c.remove m).2 = c := by
  by_cases hu : c.unique
  · simp [remove, hu]
  · simp only [remove, hu, if_neg, Bool.false_eq_true, not_false_iff, if_false] at h ⊢
    rw [removeBits_zero _ _ h]

/-- `remove` preserves the number of candidate slots. -/
lemma remove_bits_length (c : GridCell) (m : GridCellOptions) :
    (c.remove m).2.options.bits.length = c.options.bits.length := by
  by_cases h : c.unique <;> simp [remove, h, removeBits_length]

/-- `remove` preserves the `given` flag. -/
lemma remove_given (c : GridCell) (m : GridCellOptions) :
    (c.remove m).2.given = c.given := by
  by_cases h : c.unique <;> simp [remove, h]

end GridCell

/-! ### Grid-level helper lemmas: pointwise access, preservation of
unique cells, the termination measure -/

namespace Grid

/-- Setting a cell and reading another index reads the old grid. -/
lemma cellAt_set_ne (g : Grid) {i j : Nat} (c : GridCell) (h : i ≠ j) :
    Grid.cellAt ⟨g.cells.set i c⟩ j = g.cellAt j := by
  simp [Grid.cellAt, List.getD_eq_getElem?_getD, List.getElem?_set_ne h]

/-- Writing back the cell just read leaves the grid unchanged. -/
lemma set_cellAt_self (g : Grid) (i : Nat) :
    (⟨g.cells.set i (g.cellAt i)⟩ : Grid) = g := by
  cases g with
  | mk cells => exact congrArg Grid.mk (set_getD_self cells i blankCell)

/-- `g'` preserves every cell that is unique in `g`. -/
def Pres (g g' : Grid) : Prop :=
  ∀ i, (g.cellAt i).unique = true → g'.cellAt i = g.cellAt i

lemma Pres.rfl {g : Grid} : Pres g g := fun _ _ => Eq.refl _

lemma Pres.trans {g₁ g₂ g₃ : Grid} (h₁ : Pres g₁ g₂) (h₂ : Pres g₂ g₃) : Pres g₁ g₃ := by
  intro i hu
  have e := h₁ i hu
  have hu₂ : (g₂.cellAt i).unique = true := by rw [e]; exact hu
  rw [h₂ i hu₂, e]

/-- Replacing cell `i` changes `totalBits` by the difference of the
candidate counts. -/
lemma totalBits_set (g : Grid) {i : Nat} (c : GridCell) (h : i < g.cells.length) :
    totalBits ⟨g.cells.set i c⟩ + (g.cellAt i).count = totalBits g + c.count := by
  cases g with
  | mk cells =>
    induction cells generalizing i with
    | nil => simp at h
    | cons hd tl ih =>
      cases i with
      | zero => simp [totalBits, Grid.cellAt]; omega
      | succ n =>
        have hn : n < tl.length := by simpa using h
        have := ih hn
        simp [totalBits, Grid.cellAt] at this ⊢
        omega

/-! #### `removeFold` lemmas -/

lemma removeFold_pres (s : GridCellOptions) (idx : List Nat) :
    ∀ acc : Nat × Grid, Pres acc.2 (removeFold s idx acc).2 := by
  induction idx with
  | nil => intro acc; exact Pres.rfl
  | cons j rest ih =>
    intro acc
    by_cases hu : (acc.2.cellAt j).unique
    · have hrem := GridCell.remove_of_unique hu s
      have : (⟨acc.2.cells.set j ((acc.2.cellAt j).remove s).2⟩ : Grid) = acc.2 := by
        rw [hrem]; exact set_cellAt_self acc.2 j
      simpa [removeFold, this] using
        ih (acc.1 + ((acc.2.cellAt j).remove s).1, acc.2)
    · intro i hui
      have hij : j ≠ i := by
        intro h; subst h; exact hu hui
      set g₁ : Grid := ⟨acc.2.cells.set j ((acc.2.cellAt j).remove s).2⟩ with hg₁
      have e₁ : g₁.cellAt i = acc.2.cellAt i := cellAt_set_ne acc.2 _ hij
      have hui' : (g₁.cellAt i).unique = true := by rw [e₁]; exact hui
      have := ih (acc.1 + ((acc.2.cellAt j).remove s).1, g₁) i hui'
      simp only [removeFold]
      rw [this, e₁]

lemma removeFold_length (s : GridCellOptions) (idx : List Nat) :
    ∀ acc : Nat × Grid, (removeFold s idx acc).2.cells.length = acc.2.cells.length := by
  induction idx with
  | nil => intro acc; rfl
  | cons j rest ih =>
    intro acc
    simp [removeFold, ih]

lemma removeFold_bits_length (s : GridCellOptions) (idx : List Nat) :
    ∀ acc : Nat × Grid, (∀ c ∈ acc.2.cells, c.options.bits.length = 9) →
      ∀ c ∈ (removeFold s idx acc).2.cells, c.options.bits.length = 9 := by
  induction idx with
  | nil => intro acc h; exact h
  | cons j rest ih =>
    intro acc h
    apply ih
    intro c hc
    rcases mem_of_mem_set hc with hmem | heq
    · exact h c hmem
    · subst heq
      rw [GridCell.remove_bits_length]
      by_cases hj : j < acc.2.cells.length
      · exact h _ (getD_mem _ _ _ hj)
      · have hb : acc.2.cellAt j = blankCell := by
          simp [Grid.cellAt, List.getD_eq_getElem?_getD,
            List.getElem?_eq_none (show acc.2.cells.length ≤ j by omega)]
        rw [hb]
        rfl

lemma removeFold_totalBits (s : GridCellOptions) (idx : List Nat) :
    ∀ acc : Nat × Grid, (∀ i ∈ idx, i < acc.2.cells.length) →
      (removeFold s idx acc).2.totalBits + (removeFold s idx acc).1 =
        acc.2.totalBits + acc.1 := by
  induction idx with
  | nil => intro acc _; rfl
  | cons j rest ih =>
    intro acc h
    have hj : j < acc.2.cells.length := h j (by simp)
    set c' := ((acc.2.cellAt j).remove s).2 with hc'
    set n := ((acc.2.cellAt j).remove s).1 with hn
    have hset := totalBits_set acc.2 c' hj
    have hcnt := GridCell.remove_count (acc.2.cellAt j) s
    rw [← hc', ← hn] at hcnt
    have hrest : ∀ i ∈ rest, i < ((⟨acc.2.cells.set j c'⟩ : Grid)).cells.length := by
      intro i hi
      simpa using h i (by simp [hi])
    have hrec := ih (acc.1 + n, ⟨acc.2.cells.set j c'⟩) hrest
    dsimp only at hrec
    simp only [removeFold]
    rw [hrec]
    omega

lemma removeFold_monotone (s : GridCellOptions) (idx : List Nat) :
    ∀ acc : Nat × Grid, acc.1 ≤ (removeFold s idx acc).1 := by
  induction idx with
  | nil => intro acc; exact Nat.le_refl _
  | cons j rest ih =>
    intro acc
    have := ih (acc.1 + ((acc.2.cellAt j).remove s).1, ⟨acc.2.cells.set j ((acc.2.cellAt j).remove s).2⟩)
    simp only [removeFold]
    omega

lemma removeFold_zero (s : GridCellOptions) (idx : List Nat) :
    ∀ acc : Nat × Grid, (removeFold s idx acc).1 = acc.1 →
      (removeFold s idx acc).2 = acc.2 ∧ (removeFold s idx acc) = acc := by
  induction idx with
  | nil => intro acc _; exact ⟨Eq.refl _, Eq.refl _⟩
  | cons j rest ih =>
    intro acc h
    have hmono := removeFold_monotone s rest
      (acc.1 + ((acc.2.cellAt j).remove s).1, ⟨acc.2.cells.set j ((acc.2.cellAt j).remove s).2⟩)
    simp only [removeFold] at h
    have hv : ((acc.2.cellAt j).remove s).1 = 0 := by omega
    have hcell := GridCell.remove_zero hv
    have hgrid : (⟨acc.2.cells.set j ((acc.2.cellAt j).remove s).2⟩ : Grid) = acc.2 := by
      rw [hcell]; exact set_cellAt_self acc.2 j
    have := ih (acc.1 + ((acc.2.cellAt j).remove s).1, ⟨acc.2.cells.set j ((acc.2.cellAt j).remove s).2⟩)
      (by simp only [removeFold] at h ⊢; omega)
    simp only [removeFold]
    constructor
    · rw [this.1, hgrid]
    · rw [this.2]
      simp [hv, hgrid]

/-! #### `removeOptions` lemmas -/

lemma removeOptions_conflict_eq {g : Grid} {p : List Nat}
    (h : (removeOptions g p).1 = GridDeduction.Conflict) : (removeOptions g p).2 = g := by
  rcases hcs : computeSetOptions g p GridCellOptions.noneSet with _ | s
  · simp [removeOptions, hcs]
  · exfalso
    simp only [removeOptions, hcs] at h
    by_cases hz : (removeFold s p (0, g)).1 = 0 <;> simp [hz] at h

lemma removeOptions_noChange_eq {g : Grid} {p : List Nat}
    (h : (removeOptions g p).1 = GridDeduction.NoChange) : (removeOptions g p).2 = g := by
  rcases hcs : computeSetOptions g p GridCellOptions.noneSet with _ | s
  · simp [removeOptions, hcs] at h
  · simp only [removeOptions, hcs] at h ⊢
    by_cases hz : (removeFold s p (0, g)).1 = 0
    · exact (removeFold_zero s p (0, g) hz).1
    · simp [hz] at h

lemma removeOptions_pres (g : Grid) (p : List Nat) : Pres g (removeOptions g p).2 := by
  rcases hcs : computeSetOptions g p GridCellOptions.noneSet with _ | s
  · simp only [removeOptions, hcs]
    exact Pres.rfl
  · simp only [removeOptions, hcs]
    exact removeFold_pres s p (0, g)

lemma removeOptions_length (g : Grid) (p : List Nat) :
    (removeOptions g p).2.cells.length = g.cells.length := by
  rcases hcs : computeSetOptions g p GridCellOptions.noneSet with _ | s
  · simp [removeOptions, hcs]
  · simp only [removeOptions, hcs]
    exact removeFold_length s p (0, g)

lemma removeOptions_WF {g : Grid} (h : WF g) (p : List Nat) : WF (removeOptions g p).2 := by
  obtain ⟨h81, hbits⟩ := h
  constructor
  · rw [removeOptions_length]; exact h81
  · rcases hcs : computeSetOptions g p GridCellOptions.noneSet with _ | s
    · simp only [removeOptions, hcs]; exact hbits
    · simp only [removeOptions, hcs]
      exact removeFold_bits_length s p (0, g) hbits

lemma removeOptions_totalBits_le (g : Grid) (p : List Nat)
    (h : ∀ i ∈ p, i < g.cells.length) :
    (removeOptions g p).2.totalBits ≤ g.totalBits := by
  rcases hcs : computeSetOptions g p GridCellOptions.noneSet with _ | s
  · simp [removeOptions, hcs]
  · simp only [removeOptions, hcs]
    have hfold := removeFold_totalBits s p (0, g) h
    dsimp only at hfold ⊢
    omega

lemma removeOptions_consistent_lt (g : Grid) (p : List Nat)
    (h : ∀ i ∈ p, i < g.cells.length)
    (hc : (removeOptions g p).1 = GridDeduction.Consistent) :
    (removeOptions g p).2.totalBits < g.totalBits := by
  rcases hcs : computeSetOptions g p GridCellOptions.noneSet with _ | s
  · simp [removeOptions, hcs] at hc
  · simp only [removeOptions, hcs] at hc ⊢
    have hfold := removeFold_totalBits s p (0, g) h
    dsimp only at hfold ⊢
    by_cases hz : (removeFold s p (0, g)).1 = 0
    · simp [hz] at hc
    · omega

/-! #### `GridDeduction.combine` analysis -/

lemma combine_eq_noChange {a b : GridDeduction}
    (h : GridDeduction.combine a b = GridDeduction.NoChange) :
    a = GridDeduction.NoChange ∧ b = GridDeduction.NoChange := by
  cases a <;> cases b <;> simp_all [GridDeduction.combine]

lemma combine_eq_conflict {a b : GridDeduction} :
    GridDeduction.combine a b = GridDeduction.Conflict ↔
      a = GridDeduction.Conflict ∨ b = GridDeduction.Conflict := by
  cases a <;> cases b <;> simp [GridDeduction.combine]

lemma combine_eq_consistent {a b : GridDeduction}
    (h : GridDeduction.combine a b = GridDeduction.Consistent) :
    a = GridDeduction.Consistent ∨ b = GridDeduction.Consistent := by
  cases a <;> cases b <;> simp_all [GridDeduction.combine]

/-! #### `sweepParts` lemmas -/

lemma sweepParts_pres (parts : List (List Nat)) :
    ∀ acc : GridDeduction × Grid, Pres acc.2 (sweepParts acc parts).2 := by
  induction parts with
  | nil => intro acc; exact Pres.rfl
  | cons p rest ih =>
    intro acc
    simp only [sweepParts]
    exact Pres.trans (removeOptions_pres acc.2 p)
      (ih (GridDeduction.combine acc.1 (removeOptions acc.2 p).1, (removeOptions acc.2 p).2))

lemma sweepParts_length (parts : List (List Nat)) :
    ∀ acc : GridDeduction × Grid,
      (sweepParts acc parts).2.cells.length = acc.2.cells.length := by
  induction parts with
  | nil => intro acc; rfl
  | cons p rest ih =>
    intro acc
    simp only [sweepParts]
    rw [ih]
    exact removeOptions_length acc.2 p

lemma sweepParts_WF (parts : List (List Nat)) :
    ∀ acc : GridDeduction × Grid, WF acc.2 → WF (sweepParts acc parts).2 := by
  induction parts with
  | nil => intro acc h; exact h
  | cons p rest ih =>
    intro acc h
    simp only [sweepParts]
    exact ih _ (removeOptions_WF h p)

lemma sweepParts_totalBits_le (parts : List (List Nat)) :
    ∀ acc : GridDeduction × Grid, acc.2.cells.length = 81 →
      (∀ p ∈ parts, ∀ i ∈ p, i < 81) →
      (sweepParts acc parts).2.totalBits ≤ acc.2.totalBits := by
  induction parts with
  | nil => intro acc _ _; exact Nat.le_refl _
  | cons p rest ih =>
    intro acc h81 hb
    simp only [sweepParts]
    have h1 : (removeOptions acc.2 p).2.totalBits ≤ acc.2.totalBits :=
      removeOptions_totalBits_le acc.2 p (by intro i hi; rw [h81]; exact hb p (by simp) i hi)
    have h2 := ih (GridDeduction.combine acc.1 (removeOptions acc.2 p).1, (removeOptions acc.2 p).2)
      (by dsimp only; rw [removeOptions_length]; exact h81)
      (fun q hq => hb q (by simp [hq]))
    dsimp only at h2
    omega

lemma sweepParts_mono_noChange (parts : List (List Nat)) :
    ∀ acc : GridDeduction × Grid, (sweepParts acc parts).1 = GridDeduction.NoChange →
      acc.1 = GridDeduction.NoChange := by
  induction parts with
  | nil => intro acc h; exact h
  | cons p rest ih =>
    intro acc h
    simp only [sweepParts] at h
    exact (combine_eq_noChange (ih _ h)).1

lemma sweepParts_noChange (parts : List (List Nat)) :
    ∀ acc : GridDeduction × Grid, (sweepParts acc parts).1 = GridDeduction.NoChange →
      (sweepParts acc parts).2 = acc.2 ∧
        ∀ p ∈ parts, (removeOptions acc.2 p).1 = GridDeduction.NoChange := by
  induction parts with
  | nil => intro acc h; exact ⟨Eq.refl _, by simp⟩
  | cons p rest ih =>
    intro acc h
    simp only [sweepParts] at h ⊢
    have hr1 : GridDeduction.combine acc.1 (removeOptions acc.2 p).1 = GridDeduction.NoChange :=
      sweepParts_mono_noChange rest _ h
    have hp : (removeOptions acc.2 p).1 = GridDeduction.NoChange := (combine_eq_noChange hr1).2
    have hg : (removeOptions acc.2 p).2 = acc.2 := removeOptions_noChange_eq hp
    rw [hg] at h ⊢
    obtain ⟨he, hall⟩ := ih (GridDeduction.combine acc.1 (removeOptions acc.2 p).1, acc.2) h
    dsimp only at he hall
    refine ⟨he, ?_⟩
    intro q hq
    rcases List.mem_cons.mp hq with hq | hq
    · subst hq; exact hp
    · exact hall q hq

lemma sweepParts_consistent (parts : List (List Nat)) :
    ∀ acc : GridDeduction × Grid, acc.2.cells.length = 81 →
      (∀ p ∈ parts, ∀ i ∈ p, i < 81) →
      (sweepParts acc parts).1 = GridDeduction.Consistent →
      acc.1 = GridDeduction.Consistent ∨
        (sweepParts acc parts).2.totalBits < acc.2.totalBits := by
  induction parts with
  | nil => intro acc _ _ h; exact Or.inl h
  | cons p rest ih =>
    intro acc h81 hb h
    simp only [sweepParts] at h ⊢
    have h81' : (removeOptions acc.2 p).2.cells.length = 81 := by
      rw [removeOptions_length]; exact h81
    have hb' : ∀ q ∈ rest, ∀ i ∈ q, i < 81 := fun q hq => hb q (by simp [hq])
    have hih := ih (GridDeduction.combine acc.1 (removeOptions acc.2 p).1, (removeOptions acc.2 p).2)
      (by dsimp only; exact h81') hb' h
    dsimp only at hih
    rcases hih with hcomb | hlt
    · rcases combine_eq_consistent hcomb with ha | hs
      · exact Or.inl ha
      · right
        have hlt : (removeOptions acc.2 p).2.totalBits < acc.2.totalBits :=
          removeOptions_consistent_lt acc.2 p
            (by intro i hi; rw [h81]; exact hb p (by simp) i hi) hs
        have hle := sweepParts_totalBits_le rest
          (GridDeduction.combine acc.1 (removeOptions acc.2 p).1, (removeOptions acc.2 p).2)
          (by dsimp only; exact h81') hb'
        dsimp only at hle
        omega
    · right
      have hle : (removeOptions acc.2 p).2.totalBits ≤ acc.2.totalBits :=
        removeOptions_totalBits_le acc.2 p (by intro i hi; rw [h81]; exact hb p (by simp) i hi)
      omega

/-! #### `sweep` and `deduce` lemmas -/

lemma allParts_bound : ∀ p ∈ allParts, ∀ i ∈ p, i < 81 := by decide

lemma sweep_pres (g : Grid) : Pres g (sweep g).2 := sweepParts_pres allParts (GridDeduction.NoChange, g)

lemma sweep_WF {g : Grid} (h : WF g) : WF (sweep g).2 := sweepParts_WF allParts _ h

lemma sweep_length (g : Grid) : (sweep g).2.cells.length = g.cells.length :=
  sweepParts_length allParts (GridDeduction.NoChange, g)

lemma sweep_noChange {g : Grid} (h : (sweep g).1 = GridDeduction.NoChange) :
    (sweep g).2 = g ∧ ∀ p ∈ allParts, (removeOptions g p).1 = GridDeduction.NoChange :=
  sweepParts_noChange allParts (GridDeduction.NoChange, g) h

lemma sweep_consistent_lt {g : Grid} (h81 : g.cells.length = 81)
    (h : (sweep g).1 = GridDeduction.Consistent) :
    (sweep g).2.totalBits < g.totalBits := by
  rcases sweepParts_consistent allParts (GridDeduction.NoChange, g) h81 allParts_bound h
    with h' | h'
  · exact absurd h' (by simp)
  · exact h'

/-- One unfolding of the loop body of `deduce`. -/
lemma deduceAux_succ (f : Nat) (g : Grid) :
    deduceAux (f + 1) g =
      match (sweep g).1 with
      | GridDeduction.Consistent => deduceAux f (sweep g).2
      | GridDeduction.NoChange => sweep g
      | GridDeduction.Conflict => sweep g := rfl

lemma deduceAux_exit : ∀ (fuel : Nat) (g : Grid), WF g → g.totalBits < fuel →
    ∃ g₀, WF g₀ ∧ Pres g g₀ ∧ deduceAux fuel g = sweep g₀ ∧
      (sweep g₀).1 ≠ GridDeduction.Consistent := by
  intro fuel
  induction fuel with
  | zero => intro g _ hlt; omega
  | succ f ih =>
    intro g hwf hlt
    cases hs : (sweep g).1 with
    | Consistent =>
      have hdec := sweep_consistent_lt hwf.1 hs
      obtain ⟨g₀, hwf₀, hpres₀, heq, hne⟩ := ih (sweep g).2 (sweep_WF hwf) (by omega)
      refine ⟨g₀, hwf₀, Pres.trans (sweep_pres g) hpres₀, ?_, hne⟩
      rw [deduceAux_succ, hs]
      exact heq
    | NoChange =>
      refine ⟨g, hwf, Pres.rfl, ?_, by simp [hs]⟩
      rw [deduceAux_succ, hs]
    | Conflict =>
      refine ⟨g, hwf, Pres.rfl, ?_, by simp [hs]⟩
      rw [deduceAux_succ, hs]

lemma deduce_exit {g : Grid} (h : WF g) :
    ∃ g₀, WF g₀ ∧ Pres g g₀ ∧ deduce g = sweep g₀ ∧
      (sweep g₀).1 ≠ GridDeduction.Consistent :=
  deduceAux_exit (g.totalBits + 1) g h (by omega)

lemma deduceAux_pres : ∀ (fuel : Nat) (g : Grid), Pres g (deduceAux fuel g).2 := by
  intro fuel
  induction fuel with
  | zero => intro g; exact Pres.rfl
  | succ f ih =>
    intro g
    cases hs : (sweep g).1 with
    | Consistent =>
      rw [deduceAux_succ, hs]
      exact Pres.trans (sweep_pres g) (ih (sweep g).2)
    | NoChange => rw [deduceAux_succ, hs]; exact sweep_pres g
    | Conflict => rw [deduceAux_succ, hs]; exact sweep_pres g

lemma deduce_pres (g : Grid) : Pres g (deduce g).2 := deduceAux_pres _ g

lemma deduce_WF {g : Grid} (h : WF g) : WF (deduce g).2 := by
  obtain ⟨g₀, hwf₀, _, heq, _⟩ := deduce_exit h
  rw [heq]
  exact sweep_WF hwf₀

/-- The loop of `deduce` exits right after any sweep whose result is not
`Consistent`. -/
lemma deduce_eq_sweep {g : Grid} (h : (sweep g).1 ≠ GridDeduction.Consistent) :
    deduce g = sweep g := by
  show deduceAux (g.totalBits + 1) g = sweep g
  cases hs : (sweep g).1 with
  | Consistent => exact absurd hs h
  | NoChange => rw [deduceAux_succ, hs]
  | Conflict => rw [deduceAux_succ, hs]

/-- Any fuel beyond the `totalBits` measure computes the same result as
`deduce`: the loop terminates within `totalBits g + 1` sweeps. -/
lemma deduceAux_fuel : ∀ (f₁ f₂ : Nat) (g : Grid), WF g →
    g.totalBits < f₁ → g.totalBits < f₂ → deduceAux f₁ g = deduceAux f₂ g := by
  intro f₁
  induction f₁ with
  | zero => intro f₂ g _ h1 _; omega
  | succ f ih =>
    intro f₂ g hwf h1 h2
    cases f₂ with
    | zero => omega
    | succ f₂' =>
      cases hs : (sweep g).1 with
      | Consistent =>
        have hdec := sweep_consistent_lt hwf.1 hs
        rw [deduceAux_succ, deduceAux_succ, hs]
        exact ih f₂' (sweep g).2 (sweep_WF hwf) (by omega) (by omega)
      | NoChange => rw [deduceAux_succ, deduceAux_succ, hs]
      | Conflict => rw [deduceAux_succ, deduceAux_succ, hs]

end Grid

/-! ### Characterisation of `Conflict`: duplicated unique digits -/

lemma getD_replicate {α : Type} (n i : Nat) (x d : α) :
    (List.replicate n x).getD i d = if i < n then x else d := by
  induction n generalizing i with
  | zero => simp
  | succ m ih =>
    cases i with
    | zero => simp [List.replicate]
    | succ j =>
      rw [List.replicate_succ, List.getD_cons_succ, ih j]
      by_cases h : j < m
      · rw [if_pos h, if_pos (by omega)]
      · rw [if_neg h, if_neg (by omega)]

namespace GridCell

lemma unique_of_value {c : GridCell} {v : Nat} (h : c.value = some v) : c.unique = true := by
  by_cases hu : c.unique
  · exact hu
  · rw [value, if_neg (by simp [hu])] at h
    exact absurd h (by simp)

lemma value_lt {c : GridCell} (hlen : c.options.bits.length = 9) {v : Nat}
    (h : c.value = some v) : v < 9 := by
  have hu := unique_of_value h
  rw [value, if_pos (by simp [hu])] at h
  have := findIdx?_lt_length h
  omega

end GridCell

namespace Grid

/-- Two different cells of the partition `p` are both uniquely
determined to the same digit. -/
def DupIdx (g : Grid) (p : List Nat) : Prop :=
  ∃ a ∈ p, ∃ b ∈ p, a ≠ b ∧
    ∃ v, (g.cellAt a).value = some v ∧ (g.cellAt b).value = some v

lemma DupIdx_weaken {g : Grid} {p : List Nat} (i : Nat) (h : DupIdx g p) :
    DupIdx g (i :: p) := by
  obtain ⟨a, ha, b, hb, hab, v, hva, hvb⟩ := h
  exact ⟨a, List.mem_cons_of_mem _ ha, b, List.mem_cons_of_mem _ hb, hab, v, hva, hvb⟩

lemma DupIdx_pres {g g' : Grid} {p : List Nat} (hp : Pres g g') (h : DupIdx g p) :
    DupIdx g' p := by
  obtain ⟨a, ha, b, hb, hab, v, hva, hvb⟩ := h
  exact ⟨a, ha, b, hb, hab, v,
    by rw [hp a (GridCell.unique_of_value hva)]; exact hva,
    by rw [hp b (GridCell.unique_of_value hvb)]; exact hvb⟩

lemma cellAt_bits_length {g : Grid} (hb : ∀ c ∈ g.cells, c.options.bits.length = 9)
    (i : Nat) : (g.cellAt i).options.bits.length = 9 := by
  by_cases h : i < g.cells.length
  · exact hb _ (getD_mem _ _ _ h)
  · have : g.cellAt i = blankCell := by
      simp [Grid.cellAt, List.getD_eq_getElem?_getD,
        List.getElem?_eq_none (show g.cells.length ≤ i by omega)]
    rw [this]
    rfl

lemma noneSet_getD (v : Nat) : GridCellOptions.noneSet.bits.getD v false = false := by
  show (List.replicate 9 false).getD v false = false
  rw [getD_replicate]
  simp

lemma setOpt_getD (acc : GridCellOptions) (v0 w : Nat) (hlen : acc.bits.length = 9)
    (hv : v0 < 9) :
    (acc.setOpt (some v0)).bits.getD w false = (decide (w = v0) || acc.bits.getD w false) := by
  simp only [GridCellOptions.setOpt]
  by_cases h : w = v0
  · subst h
    rw [getD_set_self _ _ _ _ (by omega)]
    simp
  · rw [getD_set_ne _ _ _ _ _ (fun he => h he.symm)]
    simp [h]

lemma computeSetOptions_none_iff {g : Grid}
    (hb : ∀ c ∈ g.cells, c.options.bits.length = 9) :
    ∀ (p : List Nat) (acc : GridCellOptions), acc.bits.length = 9 → p.Nodup →
    (computeSetOptions g p acc = none ↔
      (∃ j ∈ p, ∃ w, (g.cellAt j).value = some w ∧ acc.bits.getD w false = true) ∨
        DupIdx g p) := by
  intro p
  induction p with
  | nil =>
    intro acc _ _
    simp [computeSetOptions, DupIdx]
  | cons i rest ih =>
    intro acc hlen hnd
    have hndr : rest.Nodup := (List.nodup_cons.mp hnd).2
    have hir : i ∉ rest := (List.nodup_cons.mp hnd).1
    by_cases hset : acc.isSet ((g.cellAt i).value) = true
    · have hcs : computeSetOptions g (i :: rest) acc = none := by
        simp only [computeSetOptions, hset, if_true]
      rcases hv : (g.cellAt i).value with _ | v0
      · rw [hv] at hset
        simp [GridCellOptions.isSet] at hset
      · rw [hv] at hset
        simp only [GridCellOptions.isSet] at hset
        rw [hcs]
        simp only [true_iff]
        exact Or.inl ⟨i, List.mem_cons_self i rest, v0, hv, hset⟩
    · have hstep : computeSetOptions g (i :: rest) acc =
          computeSetOptions g rest (acc.setOpt ((g.cellAt i).value)) := by
        simp [computeSetOptions, hset]
      have hlen' : (acc.setOpt ((g.cellAt i).value)).bits.length = 9 := by
        rcases (g.cellAt i).value with _ | v0 <;> simp [GridCellOptions.setOpt, hlen]
      rw [hstep, ih (acc.setOpt ((g.cellAt i).value)) hlen' hndr]
      rcases hv : (g.cellAt i).value with _ | v0
      · simp only [GridCellOptions.setOpt]
        constructor
        · rintro (⟨j, hj, w, hw, hacc⟩ | hd)
          · exact Or.inl ⟨j, List.mem_cons_of_mem _ hj, w, hw, hacc⟩
          · exact Or.inr (DupIdx_weaken i hd)
        · rintro (⟨j, hj, w, hw, hacc⟩ | hd)
          · rcases List.mem_cons.mp hj with rfl | hj'
            · rw [hv] at hw
              exact absurd hw (by simp)
            · exact Or.inl ⟨j, hj', w, hw, hacc⟩
          · obtain ⟨a, ha, b, hb', hab, v, hva, hvb⟩ := hd
            have ha' : a ∈ rest := by
              rcases List.mem_cons.mp ha with rfl | h'
              · rw [hv] at hva; exact absurd hva (by simp)
              · exact h'
            have hb'' : b ∈ rest := by
              rcases List.mem_cons.mp hb' with rfl | h'
              · rw [hv] at hvb; exact absurd hvb (by simp)
              · exact h'
            exact Or.inr ⟨a, ha', b, hb'', hab, v, hva, hvb⟩
      · have hv9 : v0 < 9 := GridCell.value_lt (cellAt_bits_length hb i) hv
        constructor
        · rintro (⟨j, hj, w, hw, hacc⟩ | hd)
          · rw [setOpt_getD acc v0 w hlen hv9] at hacc
            rcases (show w = v0 ∨ acc.bits.getD w false = true by simpa using hacc) with h | h
            · have hwv : w = v0 := by simpa using h
              subst hwv
              refine Or.inr ⟨i, List.mem_cons_self i rest, j, List.mem_cons_of_mem _ hj, ?_,
                w, hv, hw⟩
              intro he
              exact hir (he ▸ hj)
            · exact Or.inl ⟨j, List.mem_cons_of_mem _ hj, w, hw, h⟩
          · exact Or.inr (DupIdx_weaken i hd)
        · rintro (⟨j, hj, w, hw, hacc⟩ | hd)
          · rcases List.mem_cons.mp hj with rfl | hj'
            · exfalso
              rw [hv] at hw
              injection hw with hwv
              rw [hv] at hset
              simp only [GridCellOptions.isSet] at hset
              rw [← hwv] at hacc
              exact hset hacc
            · refine Or.inl ⟨j, hj', w, hw, ?_⟩
              rw [setOpt_getD acc v0 w hlen hv9, hacc]
              simp
          · obtain ⟨a, ha, b, hb', hab, v, hva, hvb⟩ := hd
            rcases List.mem_cons.mp ha with rfl | ha'
            · have hb'' : b ∈ rest := by
                rcases List.mem_cons.mp hb' with rfl | h'
                · exact absurd rfl hab
                · exact h'
              rw [hv] at hva
              injection hva with hveq
              refine Or.inl ⟨b, hb'', v, hvb, ?_⟩
              rw [setOpt_getD acc v0 v hlen hv9, ← hveq]
              simp
            · rcases List.mem_cons.mp hb' with rfl | hb''
              · rw [hv] at hvb
                injection hvb with hveq
                refine Or.inl ⟨a, ha', v, hva, ?_⟩
                rw [setOpt_getD acc v0 v hlen hv9, ← hveq]
                simp
              · exact Or.inr ⟨a, ha', b, hb'', hab, v, hva, hvb⟩

lemma removeOptions_conflict_iff {g : Grid}
    (hb : ∀ c ∈ g.cells, c.options.bits.length = 9) {p : List Nat} (hnd : p.Nodup) :
    (removeOptions g p).1 = GridDeduction.Conflict ↔ DupIdx g p := by
  have hiff := computeSetOptions_none_iff hb p GridCellOptions.noneSet (by rfl) hnd
  rcases hcs : computeSetOptions g p GridCellOptions.noneSet with _ | s
  · simp only [removeOptions, hcs]
    constructor
    · intro _
      rcases hiff.mp hcs with ⟨j, _, w, _, hacc⟩ | hd
      · rw [noneSet_getD] at hacc
        exact absurd hacc (by simp)
      · exact hd
    · intro _
      trivial
  · simp only [removeOptions, hcs]
    constructor
    · intro h
      by_cases hz : (removeFold s p (0, g)).1 = 0 <;> simp [hz] at h
    · intro hd
      exfalso
      rw [hiff.mpr (Or.inr hd)] at hcs
      exact Option.noConfusion hcs

lemma allParts_nodup : ∀ p ∈ allParts, p.Nodup := by decide

lemma sweepParts_conflict : ∀ (parts : List (List Nat)) (acc : GridDeduction × Grid),
    WF acc.2 → (∀ p ∈ parts, p.Nodup) →
    (sweepParts acc parts).1 = GridDeduction.Conflict →
    acc.1 = GridDeduction.Conflict ∨
      ∃ p ∈ parts, DupIdx (sweepParts acc parts).2 p := by
  intro parts
  induction parts with
  | nil => intro acc _ _ h; exact Or.inl h
  | cons p rest ih =>
    intro acc hwf hnd h
    simp only [sweepParts] at h ⊢
    have hih := ih (GridDeduction.combine acc.1 (removeOptions acc.2 p).1,
        (removeOptions acc.2 p).2)
      (removeOptions_WF hwf p) (fun q hq => hnd q (List.mem_cons_of_mem _ hq)) h
    dsimp only at hih
    rcases hih with hc | ⟨q, hq, hdq⟩
    · rcases combine_eq_conflict.mp hc with ha | hs
      · exact Or.inl ha
      · right
        have hdup : DupIdx acc.2 p :=
          (removeOptions_conflict_iff hwf.2 (hnd p (List.mem_cons_self p rest))).mp hs
        have hge : (removeOptions acc.2 p).2 = acc.2 := removeOptions_conflict_eq hs
        refine ⟨p, List.mem_cons_self p rest, ?_⟩
        refine DupIdx_pres (sweepParts_pres rest _) ?_
        rw [hge]
        exact hdup
    · exact Or.inr ⟨q, List.mem_cons_of_mem _ hq, hdq⟩

end Grid

/-! ### Validity of fully solved, conflict-free boards -/

namespace GridCell

/-- A unique cell has a value. -/
lemma value_isSome {c : GridCell} (hu : c.unique = true) : ∃ v, c.value = some v := by
  rw [value, if_pos (by simp [hu])]
  cases hf : c.options.bits.findIdx? (fun x => x) with
  | some v => exact ⟨v, rfl⟩
  | none =>
    exfalso
    have hall := List.findIdx?_eq_none_iff.mp hf
    have hnil : c.options.bits.filter (fun x => x) = [] :=
      List.filter_eq_nil_iff.mpr (by intro a ha; simp [hall a ha])
    simp [unique, count, hnil] at hu

end GridCell

lemma count_beq_bridge (l : List (Option Nat)) (a : Option Nat) :
    l.count a = @List.count _ instBEqOfDecidableEq a l := by
  simp only [List.count_eq_countP]
  apply List.countP_congr
  intro x _
  rw [Bool.eq_iff_iff]
  constructor
  · intro h
    have hxa : x = a := by simpa using h
    subst hxa
    simp
  · intro h
    have hxa : x = a := by simpa using h
    subst hxa
    simp

namespace Grid

lemma allParts_length : ∀ p ∈ allParts, p.length = 9 := by decide

lemma allUnique_mem {g : Grid} (hau : allUnique g = true) {c : GridCell}
    (hc : c ∈ g.cells) : c.unique = true :=
  List.all_eq_true.mp hau c hc

/-- An all-unique board with no duplicated unique digit in any
partition satisfies row/column/box completeness. -/
lemma valid_of_noDup {g : Grid} (hwf : WF g) (hau : allUnique g = true)
    (hnd : ∀ p ∈ allParts, ¬ DupIdx g p) : g.valid = true := by
  rw [Grid.valid, List.all_eq_true]
  intro p hp
  rw [List.all_eq_true]
  intro d hd
  rw [List.mem_range] at hd
  have hlen9 : p.length = 9 := allParts_length p hp
  have hbound := allParts_bound p hp
  have hndp := allParts_nodup p hp
  have hsome : ∀ i ∈ p, ∃ v, (g.cellAt i).value = some v ∧ v < 9 := by
    intro i hi
    have hib : i < 81 := hbound i hi
    have hcell : g.cellAt i ∈ g.cells := getD_mem _ _ _ (by rw [hwf.1]; exact hib)
    obtain ⟨v, hv⟩ := GridCell.value_isSome (allUnique_mem hau hcell)
    exact ⟨v, hv, GridCell.value_lt (cellAt_bits_length hwf.2 i) hv⟩
  have hinj : ∀ a ∈ p, ∀ b ∈ p,
      (g.cellAt a).value = (g.cellAt b).value → a = b := by
    intro a ha b hb hfe
    by_contra hne
    obtain ⟨v, hv, _⟩ := hsome a ha
    exact hnd p hp ⟨a, ha, b, hb, hne, v, hv, by rw [← hfe]; exact hv⟩
  have hvnd : (p.map (fun i => (g.cellAt i).value)).Nodup := hndp.map_on hinj
  have hsub : ∀ x ∈ p.map (fun i => (g.cellAt i).value),
      x ∈ (List.range 9).map some := by
    intro x hx
    obtain ⟨i, hi, rfl⟩ := List.mem_map.mp hx
    obtain ⟨v, hv, hv9⟩ := hsome i hi
    rw [hv]
    exact List.mem_map.mpr ⟨v, List.mem_range.mpr hv9, rfl⟩
  have hrnd : ((List.range 9).map some : List (Option Nat)).Nodup := by decide
  have hsubF : (p.map (fun i => (g.cellAt i).value)).toFinset ⊆
      ((List.range 9).map some).toFinset := by
    intro x hx
    rw [List.mem_toFinset] at hx ⊢
    exact hsub x hx
  have hcard : (((List.range 9).map some : List (Option Nat))).toFinset.card ≤
      (p.map (fun i => (g.cellAt i).value)).toFinset.card := by
    rw [List.toFinset_card_of_nodup hvnd, List.toFinset_card_of_nodup hrnd]
    simp [hlen9]
  have hEq := Finset.eq_of_subset_of_card_le hsubF hcard
  have hmem : (some d) ∈ p.map (fun i => (g.cellAt i).value) := by
    rw [← List.mem_toFinset, hEq, List.mem_toFinset]
    exact List.mem_map.mpr ⟨d, List.mem_range.mpr hd, rfl⟩
  have hcount := List.count_eq_one_of_mem hvnd hmem
  simp only [beq_iff_eq]
  rw [count_beq_bridge]
  exact hcount

/-- `deduce` without conflict leaves no duplicated unique digit in any
partition. -/
lemma deduce_noConflict_noDup {g : Grid} (hwf : WF g)
    (h : (deduce g).1 ≠ GridDeduction.Conflict) :
    ∀ p ∈ allParts, ¬ DupIdx (deduce g).2 p := by
  obtain ⟨g₀, hwf₀, _, heq, hne⟩ := deduce_exit hwf
  rw [heq] at h ⊢
  cases hs : (sweep g₀).1 with
  | Consistent => exact absurd hs hne
  | Conflict => exact absurd hs (by rw [hs] at h ⊢; exact fun _ => h rfl)
  | NoChange =>
    obtain ⟨hg, hall⟩ := sweep_noChange hs
    rw [hg]
    intro p hp hd
    have hcf := (removeOptions_conflict_iff hwf₀.2 (allParts_nodup p hp)).mpr hd
    rw [hall p hp] at hcf
    exact GridDeduction.noConfusion hcf

/-- Setting a guess at a cell keeps the board well-formed. -/
lemma WF_setCell {g : Grid} (hwf : WF g) (i guess : Nat) :
    WF ⟨g.cells.set i ((g.cellAt i).setCell guess)⟩ := by
  constructor
  · simp [hwf.1]
  · intro c hc
    rcases mem_of_mem_set hc with h | h
    · exact hwf.2 c h
    · subst h
      simp [GridCell.setCell, GridCellOptions.single]

lemma firstUnsolvedAux_none : ∀ (cells : List GridCell) (start : Nat),
    firstUnsolvedAux cells start = none ↔ ∀ c ∈ cells, c.unique = true := by
  intro cells
  induction cells with
  | nil => intro start; simp [firstUnsolvedAux]
  | cons c rest ih =>
    intro start
    by_cases hu : c.unique
    · simp [firstUnsolvedAux, hu, ih (start + 1)]
    · simp [firstUnsolvedAux, hu]

lemma allUnique_iff (g : Grid) : allUnique g = true ↔ g.firstUnsolvedCell = none := by
  rw [Grid.allUnique, Grid.firstUnsolvedCell, firstUnsolvedAux_none, List.all_eq_true]

end Grid

/-! ### `firstUnsolvedCell` and `findSolutions` lemmas -/

namespace Grid

lemma firstUnsolvedAux_spec : ∀ (cells : List GridCell) (start i : Nat) (o : GridCellOptions),
    firstUnsolvedAux cells start = some (i, o) →
    start ≤ i ∧ i - start < cells.length ∧
      (cells.getD (i - start) blankCell).unique = false ∧
      (cells.getD (i - start) blankCell).options = o := by
  intro cells
  induction cells with
  | nil => intro start i o h; simp [firstUnsolvedAux] at h
  | cons c rest ih =>
    intro start i o h
    by_cases hu : c.unique
    · simp only [firstUnsolvedAux, hu, if_pos] at h
      obtain ⟨h1, h2, h3, h4⟩ := ih (start + 1) i o h
      have hgt : 0 < i - start := by omega
      have : i - start = (i - (start + 1)) + 1 := by omega
      rw [this]
      simp only [List.getD_cons_succ]
      exact ⟨by omega, by simp; omega, h3, h4⟩
    · simp only [firstUnsolvedAux, hu, Bool.false_eq_true, if_false, Option.some.injEq,
        Prod.mk.injEq] at h
      obtain ⟨h1, h2⟩ := h
      subst h1
      refine ⟨Nat.le_refl _, by simp, ?_, ?_⟩
      · simpa using Bool.not_eq_true c.unique |>.mp hu
      · simpa using h2

lemma firstUnsolvedCell_spec {g : Grid} {i : Nat} {o : GridCellOptions}
    (h : g.firstUnsolvedCell = some (i, o)) :
    i < g.cells.length ∧ (g.cellAt i).unique = false ∧ (g.cellAt i).options = o := by
  obtain ⟨_, h2, h3, h4⟩ := firstUnsolvedAux_spec g.cells 0 i o h
  rw [Nat.sub_zero] at h2 h3 h4
  exact ⟨h2, h3, h4⟩

/-- Setting a guess at the trial cell returned by `first_unsolved_cell`
preserves every unique cell (the trial cell is not unique). -/
lemma pres_trial (g : Grid) {i : Nat} {o : GridCellOptions}
    (h : g.firstUnsolvedCell = some (i, o)) (guess : Nat) :
    Pres g ⟨g.cells.set i ((g.cellAt i).setCell guess)⟩ := by
  intro j hj
  have hne : i ≠ j := by
    intro he
    subst he
    rw [(firstUnsolvedCell_spec h).2.1] at hj
    exact Bool.false_ne_true hj
  exact cellAt_set_ne g _ hne

lemma findSolutions_length_le : ∀ (fuel : Nat) (g : Grid) (acc : List Grid) (k : Nat),
    acc.length ≤ k → (findSolutions fuel g acc k).length ≤ k := by
  intro fuel
  induction fuel with
  | zero => intro g acc k h; exact h
  | succ f ih =>
    intro g acc k hacc
    simp only [findSolutions]
    by_cases hk : k ≤ acc.length
    · rw [if_pos hk]; exact hacc
    · rw [if_neg hk]
      cases hfu : g.firstUnsolvedCell with
      | none => simp; omega
      | some pr =>
        obtain ⟨trialIndex, options⟩ := pr
        have haux : ∀ (l : List Nat) (sols : List Grid), sols.length ≤ k →
            (l.foldl
              (fun sols guess =>
                let g' : Grid := ⟨g.cells.set trialIndex ((g.cellAt trialIndex).setCell guess)⟩
                let s := g'.deduce
                if s.1.noConflict then findSolutions f s.2 sols k else sols)
              sols).length ≤ k := by
          intro l
          induction l with
          | nil => intro sols h; exact h
          | cons guess rest ihl =>
            intro sols h
            simp only [List.foldl_cons]
            apply ihl
            by_cases hc : ((⟨g.cells.set trialIndex ((g.cellAt trialIndex).setCell guess)⟩ :
                Grid).deduce).1.noConflict
            · simp only [hc, if_pos]
              exact ih _ _ _ h
            · simp only [hc, Bool.false_eq_true, if_false]
              exact h
        exact haux options.toList acc (by omega)

lemma findSolutions_mem : ∀ (fuel : Nat) (g : Grid) (acc : List Grid) (k : Nat) (s : Grid),
    s ∈ findSolutions fuel g acc k → s ∈ acc ∨ Pres g s := by
  intro fuel
  induction fuel with
  | zero => intro g acc k s h; exact Or.inl h
  | succ f ih =>
    intro g acc k s hs
    simp only [findSolutions] at hs
    by_cases hk : k ≤ acc.length
    · rw [if_pos hk] at hs; exact Or.inl hs
    · rw [if_neg hk] at hs
      cases hfu : g.firstUnsolvedCell with
      | none =>
        rw [hfu] at hs
        rcases List.mem_append.mp hs with h | h
        · exact Or.inl h
        · simp at h
          subst h
          exact Or.inr Pres.rfl
      | some pr =>
        rw [hfu] at hs
        obtain ⟨trialIndex, options⟩ := pr
        have haux : ∀ (l : List Nat) (sols : List Grid),
            (∀ t ∈ sols, t ∈ acc ∨ Pres g t) →
            ∀ t ∈ (l.foldl
              (fun sols guess =>
                let g' : Grid := ⟨g.cells.set trialIndex ((g.cellAt trialIndex).setCell guess)⟩
                let s := g'.deduce
                if s.1.noConflict then findSolutions f s.2 sols k else sols)
              sols), t ∈ acc ∨ Pres g t := by
          intro l
          induction l with
          | nil => intro sols h t ht; exact h t ht
          | cons guess rest ihl =>
            intro sols h t ht
            simp only [List.foldl_cons] at ht
            refine ihl _ ?_ t ht
            intro u hu
            by_cases hc : ((⟨g.cells.set trialIndex ((g.cellAt trialIndex).setCell guess)⟩ :
                Grid).deduce).1.noConflict
            · simp only [hc, if_pos] at hu
              rcases ih _ _ _ _ hu with h' | h'
              · exact h u h'
              · right
                refine Pres.trans (pres_trial g hfu guess) (Pres.trans (deduce_pres _) h')
            · simp only [hc, Bool.false_eq_true, if_false] at hu
              exact h u hu
        exact haux options.toList acc (fun t ht => Or.inl ht) s hs

/-- Soundness of the solutions pushed by `find_solutions`: apart from
pre-existing accumulator entries and the degenerate push of an
already-fully-unique input, every solution is fully solved and
valid. -/
lemma findSolutions_sound : ∀ (fuel : Nat) (g : Grid) (acc : List Grid) (k : Nat) (s : Grid),
    WF g → s ∈ findSolutions fuel g acc k →
    s ∈ acc ∨ (s = g ∧ g.firstUnsolvedCell = none) ∨
      (allUnique s = true ∧ valid s = true) := by
  intro fuel
  induction fuel with
  | zero => intro g acc k s _ h; exact Or.inl h
  | succ f ih =>
    intro g acc k s hwf hs
    simp only [findSolutions] at hs
    by_cases hk : k ≤ acc.length
    · rw [if_pos hk] at hs; exact Or.inl hs
    · rw [if_neg hk] at hs
      cases hfu : g.firstUnsolvedCell with
      | none =>
        rw [hfu] at hs
        rcases List.mem_append.mp hs with h | h
        · exact Or.inl h
        · simp at h
          subst h
          exact Or.inr (Or.inl ⟨rfl, rfl⟩)
      | some pr =>
        rw [hfu] at hs
        obtain ⟨trialIndex, options⟩ := pr
        have haux : ∀ (l : List Nat) (sols : List Grid),
            (∀ t ∈ sols, t ∈ acc ∨ (allUnique t = true ∧ valid t = true)) →
            ∀ t ∈ (l.foldl
              (fun sols guess =>
                let g' : Grid := ⟨g.cells.set trialIndex ((g.cellAt trialIndex).setCell guess)⟩
                let s := g'.deduce
                if s.1.noConflict then findSolutions f s.2 sols k else sols)
              sols), t ∈ acc ∨ (allUnique t = true ∧ valid t = true) := by
          intro l
          induction l with
          | nil => intro sols h t ht; exact h t ht
          | cons guess rest ihl =>
            intro sols h t ht
            simp only [List.foldl_cons] at ht
            refine ihl _ ?_ t ht
            intro u hu
            by_cases hc : ((⟨g.cells.set trialIndex ((g.cellAt trialIndex).setCell guess)⟩ :
                Grid).deduce).1.noConflict
            · simp only [hc, if_pos] at hu
              have hwf' : WF (⟨g.cells.set trialIndex ((g.cellAt trialIndex).setCell guess)⟩ :
                  Grid) := WF_setCell hwf trialIndex guess
              have hwf'' := deduce_WF hwf'
              rcases ih _ sols k u hwf'' hu with h' | ⟨heq, hfu''⟩ | h'
              · exact h u h'
              · right
                have hau : allUnique ((⟨g.cells.set trialIndex
                    ((g.cellAt trialIndex).setCell guess)⟩ : Grid).deduce).2 = true :=
                  (allUnique_iff _).mpr hfu''
                have hnc : ((⟨g.cells.set trialIndex ((g.cellAt trialIndex).setCell guess)⟩ :
                    Grid).deduce).1 ≠ GridDeduction.Conflict := by
                  intro he
                  rw [he] at hc
                  exact Bool.false_ne_true hc
                have hnd := deduce_noConflict_noDup hwf' hnc
                subst heq
                exact ⟨hau, valid_of_noDup hwf'' hau hnd⟩
              · exact Or.inr h'
            · simp only [hc, Bool.false_eq_true, if_false] at hu
              exact h u hu
        rcases haux options.toList acc (fun t ht => Or.inl ht) s hs with h | h
        · exact Or.inl h
        · exact Or.inr (Or.inr h)

end Grid

/-- Claim C7: on an already-unique cell, `remove` is a no-op returning
0; otherwise it clears exactly the candidate bits present in the mask
(pointwise), keeps the `given` flag, and returns the number of bits
that were actually set and got cleared (the drop in the candidate
count). -/
theorem claim_C7 : ∀ (c : GridCell) (m : GridCellOptions),
    (c.unique = true → c.remove m = (0, c)) ∧
    (c.unique = false →
      (c.remove m).1 + (c.remove m).2.count = c.count ∧
      (c.remove m).2.given = c.given ∧
      ∀ i : Nat, (c.remove m).2.options.bits.getD i false =
        (c.options.bits.getD i false && !(m.bits.getD i false))) := by
  intro c m
  constructor
  · intro h
    exact GridCell.remove_of_unique h m
  · intro h
    refine ⟨by have := GridCell.remove_count c m; omega, GridCell.remove_given c m, ?_⟩
    intro i
    simp only [GridCell.remove, h, Bool.false_eq_true, if_false]
    exact GridCell.removeBits_getD c.options.bits m.bits i

/-- Witness for C7: the no-op at a unique cell, and the cleared bit at
a blank cell, both against the mask `{3}`. -/
theorem claim_C7_witness :
    blankCell.unique = false ∧ (GridCell.new (some 0)).unique = true ∧
    (GridCell.new (some 0)).remove (GridCellOptions.single 2) = (0, GridCell.new (some 0)) ∧
    (blankCell.remove (GridCellOptions.single 2)).2.options.bits.getD 2 false = false :=
  ⟨by decide, by decide,
   (claim_C7 (GridCell.new (some 0)) (GridCellOptions.single 2)).1 (by decide),
   by
     have h := ((claim_C7 blankCell (GridCellOptions.single 2)).2 (by decide)).2.2 2
     rw [h]
     decide⟩

/-- Claim C5: `solve(cutoff=k)` returns at most `k` boards for every
input board and every cutoff: `find_solutions` returns immediately once
the accumulator holds `k` solutions and only appends below that
bound. -/
theorem claim_C5 : ∀ (g : Grid) (k : Nat), (Grid.solve g k).length ≤ k :=
  fun g k => Grid.findSolutions_length_le _ g [] k (by simp)

/-- Claim C3: solving preserves given cells.  Any cell that is given
with a unique value in the input keeps that value in every solution
`solve` returns: `remove` never touches a unique cell and guesses are
only placed at non-unique cells. -/
theorem claim_C3 : ∀ (g : Grid) (k i v : Nat) (s : Grid),
    (g.cellAt i).given = true → (g.cellAt i).value = some v →
    s ∈ Grid.solve g k → (s.cellAt i).value = some v := by
  intro g k i v s _ hval hs
  rcases Grid.findSolutions_mem _ g [] k s hs with h | h
  · simp at h
  · have hu : (g.cellAt i).unique = true := by
      by_cases hq : (g.cellAt i).unique
      · exact hq
      · rw [GridCell.value, if_neg (by simp [hq])] at hval
        exact absurd hval (by simp)
    rw [h i hu]
    exact hval

/-- Witness for C3: the fully given solved board solves to itself and
keeps its given top-left 5. -/
theorem claim_C3_witness :
    (solvedGrid.cellAt 0).given = true ∧ (solvedGrid.cellAt 0).value = some 4 ∧
    solvedGrid ∈ Grid.solve solvedGrid 1 ∧ ((solvedGrid.cellAt 0)).value = some 4 :=
  ⟨by decide, by decide, by decide,
   claim_C3 solvedGrid 1 0 4 solvedGrid (by decide) (by decide) (by decide)⟩

/-- Claim C2, counterexample: solve does not always return valid
boards.  The all-ones board is fully unique, so `find_solutions` pushes
it verbatim without ever running `deduce`, although every row violates
completeness. -/
theorem claim_C2_counterexample :
    allOnesGrid ∈ Grid.solve allOnesGrid 1 ∧ Grid.valid allOnesGrid = false :=
  ⟨by decide, by decide⟩

/-- Claim C2 (amended): every board returned by `solve` is fully solved
(every cell unique); and provided the input board still had a
non-unique cell, every returned board additionally satisfies
row/column/box completeness.  An already fully solved input is returned
as-is without a validity check. -/
theorem claim_C2 : ∀ (g : Grid) (k : Nat) (s : Grid), Grid.WF g → s ∈ Grid.solve g k →
    Grid.allUnique s = true ∧ (Grid.allUnique g = false → Grid.valid s = true) := by
  intro g k s hwf hs
  rcases Grid.findSolutions_sound _ g [] k s hwf hs with h | ⟨heq, hfu⟩ | ⟨hau, hv⟩
  · simp at h
  · have hg : Grid.allUnique g = true := (Grid.allUnique_iff g).mpr hfu
    subst heq
    refine ⟨hg, ?_⟩
    intro hfalse
    rw [hg] at hfalse
    exact absurd hfalse (by simp)
  · exact ⟨hau, fun _ => hv⟩

set_option maxHeartbeats 4000000 in
/-- Witness for amended C2: solving the solved board with a blanked
last cell returns the reconstructed full board, which is fully solved
and valid. -/
theorem claim_C2_witness :
    Grid.allUnique almostSolvedSolution = true ∧ Grid.valid almostSolvedSolution = true := by
  have h := claim_C2 almostSolvedGrid 1 almostSolvedSolution (by decide) (by decide)
  exact ⟨h.1, h.2 (by decide)⟩

/-- Claim C4: `deduce` reports `Conflict` if and only if some row,
column or box ends up (in the state propagation reached) with two
different cells both uniquely determined to the same digit — duplicated
unique digits are never removed, so the duplicate found mid-propagation
persists to the final state, and a conflict-free `NoChange` sweep rules
any duplicate out.  In particular, a board whose bottom row contains
two given 5s makes `deduce` report `Conflict`. -/
theorem claim_C4 :
    (∀ g : Grid, Grid.WF g →
      ((Grid.deduce g).1 = GridDeduction.Conflict ↔
        ∃ p ∈ Grid.allParts, Grid.DupIdx (Grid.deduce g).2 p)) ∧
    (Grid.deduce twoFivesRow).1 = GridDeduction.Conflict := by
  constructor
  · intro g hwf
    obtain ⟨g₀, hwf₀, hpres₀, heq, hne⟩ := Grid.deduce_exit hwf
    rw [heq]
    constructor
    · intro hc
      rcases Grid.sweepParts_conflict Grid.allParts (GridDeduction.NoChange, g₀) hwf₀
        Grid.allParts_nodup hc with h | h
      · exact absurd h (by simp)
      · exact h
    · rintro ⟨p, hp, hdp⟩
      cases hs : (Grid.sweep g₀).1 with
      | Consistent => exact absurd hs hne
      | Conflict => rfl
      | NoChange =>
        exfalso
        obtain ⟨hg, hall⟩ := Grid.sweep_noChange hs
        rw [hg] at hdp
        have hcf := (Grid.removeOptions_conflict_iff hwf₀.2
          (Grid.allParts_nodup p hp)).mpr hdp
        rw [hall p hp] at hcf
        exact GridDeduction.noConfusion hcf
  · decide

/-- Witness for C4: the two-fives board satisfies the well-formedness
hypothesis, and the equivalence produces its duplicated digit. -/
theorem claim_C4_witness :
    ∃ p ∈ Grid.allParts, Grid.DupIdx (Grid.deduce twoFivesRow).2 p :=
  (claim_C4.1 twoFivesRow (by decide)).mp claim_C4.2

/-- Claim C10: `deduce` terminates on every well-formed board.  Each
sweep that reports `Consistent` strictly decreases the total number of
set candidate bits (bounded below by zero), the loop exits as soon as a
sweep reports `NoChange` or `Conflict`, and any fuel above the measure
computes the canonical `deduce`. -/
theorem claim_C10 :
    (∀ g : Grid, Grid.WF g → (Grid.sweep g).1 = GridDeduction.Consistent →
      (Grid.sweep g).2.totalBits < g.totalBits) ∧
    (∀ g : Grid, (Grid.sweep g).1 ≠ GridDeduction.Consistent → Grid.deduce g = Grid.sweep g) ∧
    (∀ (g : Grid) (fuel : Nat), Grid.WF g → g.totalBits < fuel →
      Grid.deduceAux fuel g = Grid.deduce g) := by
  refine ⟨?_, ?_, ?_⟩
  · intro g hwf h
    exact Grid.sweep_consistent_lt hwf.1 h
  · intro g h
    exact Grid.deduce_eq_sweep h
  · intro g fuel hwf hlt
    exact Grid.deduceAux_fuel fuel (g.totalBits + 1) g hwf hlt (by omega)

/-- Witness for C10: the strict decrease holds at a concrete board with
one given (its first sweep is `Consistent`); the loop exit and the fuel
independence hold at the blank board. -/
theorem claim_C10_witness :
    (Grid.sweep singleGiven).2.totalBits < singleGiven.totalBits ∧
    Grid.deduce blankGrid = Grid.sweep blankGrid ∧
    Grid.deduceAux 1000 blankGrid = Grid.deduce blankGrid :=
  ⟨claim_C10.1 singleGiven (by decide) (by decide),
   claim_C10.2.1 blankGrid (by decide),
   claim_C10.2.2 blankGrid 1000 (by decide) (by decide)⟩

/-- Claim C8, counterexample: `'0'` is not a placeholder.  Parsing the
text `"05"` puts the given 5 into cell 0 and leaves cell 1 blank: the
`'0'` was skipped without consuming a cell position, whereas the claim
would put a blank at cell 0 and the 5 at cell 1. -/
theorem claim_C8_counterexample :
    (gridNew ['0', '5']).map (fun g => ((g.cellAt 0).value, (g.cellAt 1).value)) =
      some (some 4, none) := by decide

/-- Claim C8 (amended): each digit `'1'..='9'` fills the next cell in
row-major order as a given singleton (or aborts when more than 81 cells
are produced), the placeholder `'x'` advances past the next cell,
leaving it in its blank default state, and every other character —
including `'0'` — is skipped without consuming a cell position. -/
theorem claim_C8 : ∀ (c : Char) (rest : List Char) (i : Nat) (cells : List GridCell),
    (('1' ≤ c ∧ c ≤ '9') →
      gridNewAux (c :: rest) i cells =
        if i < 81 then
          gridNewAux rest (i + 1) (cells.set i (GridCell.new (some (c.toNat - '0'.toNat - 1))))
        else none) ∧
    (c = 'x' → gridNewAux (c :: rest) i cells = gridNewAux rest (i + 1) cells) ∧
    (¬('1' ≤ c ∧ c ≤ '9') → c ≠ 'x' →
      gridNewAux (c :: rest) i cells = gridNewAux rest i cells) := by
  intro c rest i cells
  refine ⟨?_, ?_, ?_⟩
  · intro hd
    have hx : ¬(c = 'x') := by
      intro he
      subst he
      revert hd
      decide
    simp only [gridNewAux, if_neg hx, if_pos hd]
  · intro he
    subst he
    simp [gridNewAux]
  · intro hd hx
    simp only [gridNewAux, if_neg hx, if_neg hd]

/-- Witness for amended C8: one step each for a digit, the placeholder,
and a skipped `'0'`. -/
theorem claim_C8_witness :
    (gridNewAux ('5' :: []) 0 (List.replicate 81 blankCell) =
      if 0 < 81 then
        gridNewAux [] (0 + 1)
          ((List.replicate 81 blankCell).set 0 (GridCell.new (some ('5'.toNat - '0'.toNat - 1))))
      else none) ∧
    (gridNewAux ('x' :: []) 3 (List.replicate 81 blankCell) =
      gridNewAux [] (3 + 1) (List.replicate 81 blankCell)) ∧
    (gridNewAux ('0' :: []) 5 (List.replicate 81 blankCell) =
      gridNewAux [] 5 (List.replicate 81 blankCell)) :=
  ⟨(claim_C8 '5' [] 0 (List.replicate 81 blankCell)).1 (by decide),
   (claim_C8 'x' [] 3 (List.replicate 81 blankCell)).2.1 rfl,
   (claim_C8 '0' [] 5 (List.replicate 81 blankCell)).2.2 (by decide) (by decide)⟩

/-- Claim C9, counterexample: construction does not fail on fewer than
81 value-producing characters — the empty text yields the all-blank
board rather than an error. -/
theorem claim_C9_counterexample : gridNew [] = some blankGrid := by decide

/-- Claim C9 (amended): when the text produces at most the remaining
number of cells, `Grid::new` succeeds (no panic is reached) and every
cell at or beyond the final fill index keeps its previous (blank
default) state: short inputs silently default the remaining cells. -/
theorem claim_C9 : ∀ (text : List Char) (i : Nat) (cells : List GridCell),
    i + producingCount text ≤ 81 →
    ∃ cells', gridNewAux text i cells = some cells' ∧
      ∀ j, i + producingCount text ≤ j →
        cells'.getD j blankCell = cells.getD j blankCell := by
  intro text
  induction text with
  | nil =>
    intro i cells _
    exact ⟨cells, rfl, fun j _ => rfl⟩
  | cons c rest ih =>
    intro i cells hcnt
    by_cases hx : c = 'x'
    · subst hx
      have hpc : producingCount ('x' :: rest) = producingCount rest + 1 := by
        simp [producingCount, List.filter_cons]
      rw [hpc] at hcnt ⊢
      obtain ⟨cells', heq, hrest⟩ := ih (i + 1) cells (by omega)
      refine ⟨cells', ?_, ?_⟩
      · simpa [gridNewAux] using heq
      · intro j hj
        exact hrest j (by omega)
    · by_cases hd : '1' ≤ c ∧ c ≤ '9'
      · have hpc : producingCount (c :: rest) = producingCount rest + 1 := by
          simp [producingCount, List.filter_cons, hx, hd]
        rw [hpc] at hcnt ⊢
        have hi : i < 81 := by omega
        obtain ⟨cells', heq, hrest⟩ :=
          ih (i + 1) (cells.set i (GridCell.new (some (c.toNat - '0'.toNat - 1)))) (by omega)
        refine ⟨cells', ?_, ?_⟩
        · simp only [gridNewAux, if_neg hx, if_pos hd, if_pos hi]
          exact heq
        · intro j hj
          rw [hrest j (by omega)]
          exact getD_set_ne _ _ _ _ _ (by omega)
      · have hpc : producingCount (c :: rest) = producingCount rest := by
          simp [producingCount, List.filter_cons, hx, hd]
        rw [hpc] at hcnt ⊢
        obtain ⟨cells', heq, hrest⟩ := ih i cells hcnt
        refine ⟨cells', ?_, ?_⟩
        · simp only [gridNewAux, if_neg hx, if_neg hd]
          exact heq
        · exact hrest

/-- Witness for amended C9: a two-character text fills cells 0 and 1
and leaves everything from cell 2 on blank. -/
theorem claim_C9_witness :
    ∃ cells', gridNewAux ['5', 'x'] 0 (List.replicate 81 blankCell) = some cells' ∧
      ∀ j, 0 + producingCount ['5', 'x'] ≤ j →
        cells'.getD j blankCell = (List.replicate 81 blankCell).getD j blankCell :=
  claim_C9 ['5', 'x'] 0 (List.replicate 81 blankCell) (by decide)

/-- Claim C6, counterexample: `deduce` is not idempotent as stated.
After a `Conflict` outcome the loop stops mid-propagation, and a second
call can still remove candidates.  At `conflictMid` the first `deduce`
ends in `Conflict` one sweep after the column-5 chain made cell 5
unique, and the second call propagates that into row 0, changing the
board. -/
theorem claim_C6_counterexample :
    (Grid.deduce (Grid.deduce conflictMid).2).2 ≠ (Grid.deduce conflictMid).2 := by decide

/-- Claim C6 (amended): `deduce` is idempotent whenever the first call
reports `NoChange` (every run that does not end in `Conflict`); the
board is then at a fixed point of the sweep and a second call returns
`(NoChange, same board)`. -/
theorem claim_C6 : ∀ g : Grid, Grid.WF g →
    (Grid.deduce g).1 = GridDeduction.NoChange →
    Grid.deduce (Grid.deduce g).2 = Grid.deduce g := by
  intro g hwf h
  obtain ⟨g₀, hwf₀, hpres₀, heq, hne⟩ := Grid.deduce_exit hwf
  rw [heq] at h ⊢
  obtain ⟨hg, _⟩ := Grid.sweep_noChange h
  rw [hg]
  exact Grid.deduce_eq_sweep (by rw [h]; simp)

/-- Witness for amended C6 at the blank board, whose single sweep
removes nothing. -/
theorem claim_C6_witness :
    Grid.deduce (Grid.deduce blankGrid).2 = Grid.deduce blankGrid :=
  claim_C6 blankGrid (by decide) (by decide)
